import Mathlib

/-!
Verification of the LMMS audio mixer engine (`src/include/mixer.h` and the
spec of the surrounding engine).  We shallowly embed the inline code of the
`mixer` class header; parts of the engine whose implementation file is not in
the examined sources (the FIFO buffer, the pool rotation, `removePlayHandle`,
`processingSampleRate`, the worker handshake) are modelled from the spec and
marked as such on their definitions.
-/

namespace Mixer

/-! ### Quality settings (from `mixer::qualitySettings` in mixer.h) -/

/-- `enum Mode` of `mixer::qualitySettings`. -/
inductive Mode
  | Mode_Draft
  | Mode_HighQuality
  | Mode_FinalMix
  deriving DecidableEq, Repr

/-- `enum Interpolation` of `mixer::qualitySettings`. -/
inductive Interpolation
  | Interpolation_Linear
  | Interpolation_SincFastest
  | Interpolation_SincMedium
  | Interpolation_SincBest
  deriving DecidableEq, Repr

/-- `enum Oversampling` of `mixer::qualitySettings`. -/
inductive Oversampling
  | Oversampling_None
  | Oversampling_2x
  | Oversampling_4x
  | Oversampling_8x
  deriving DecidableEq, Repr

/-- The `mixer::qualitySettings` struct. -/
structure qualitySettings where
  interpolation : Interpolation
  oversampling : Oversampling
  sampleExactControllers : Bool
  aliasFreeOscillators : Bool
  deriving DecidableEq, Repr

/-- The `qualitySettings( Mode _m )` constructor: a `switch` on the mode
assigning the four fields of the preset. -/
def qualitySettings.ofMode : Mode → qualitySettings
  | Mode.Mode_Draft =>
      { interpolation := Interpolation.Interpolation_Linear
        oversampling := Oversampling.Oversampling_None
        sampleExactControllers := false
        aliasFreeOscillators := false }
  | Mode.Mode_HighQuality =>
      { interpolation := Interpolation.Interpolation_SincFastest
        oversampling := Oversampling.Oversampling_2x
        sampleExactControllers := true
        aliasFreeOscillators := false }
  | Mode.Mode_FinalMix =>
      { interpolation := Interpolation.Interpolation_SincBest
        oversampling := Oversampling.Oversampling_8x
        sampleExactControllers := true
        aliasFreeOscillators := true }

/-- `qualitySettings::sampleRateMultiplier()`: a `switch` on the
`oversampling` field. -/
def qualitySettings.sampleRateMultiplier (q : qualitySettings) : Int :=
  match q.oversampling with
  | Oversampling.Oversampling_None => 1
  | Oversampling.Oversampling_2x => 2
  | Oversampling.Oversampling_4x => 4
  | Oversampling.Oversampling_8x => 8

/-- The underlying C++ integer value of each `Oversampling` enumerator
(`Oversampling_None = 0`, ..., `Oversampling_8x = 3`). -/
def Oversampling.toInt : Oversampling → Int
  | Oversampling.Oversampling_None => 0
  | Oversampling.Oversampling_2x => 1
  | Oversampling.Oversampling_4x => 2
  | Oversampling.Oversampling_8x => 3

/-- `sampleRateMultiplier` as the C++ compiler sees it: a `switch` over the
underlying integer of the enum, with the trailing `return 1;` reached by any
out-of-range value stored in the enum field. -/
def sampleRateMultiplierCode (o : Int) : Int :=
  if o = 0 then 1
  else if o = 1 then 2
  else if o = 2 then 4
  else if o = 3 then 8
  else 1

/-- libsamplerate converter identifiers from `samplerate.h`
(`SRC_SINC_BEST_QUALITY = 0` ... `SRC_LINEAR = 4`). -/
def SRC_SINC_BEST_QUALITY : Int := 0

def SRC_SINC_MEDIUM_QUALITY : Int := 1

def SRC_SINC_FASTEST : Int := 2

def SRC_ZERO_ORDER_HOLD : Int := 3

def SRC_LINEAR : Int := 4

/-- `qualitySettings::libsrcInterpolation()`: a `switch` on the
`interpolation` field (the trailing `return SRC_LINEAR;` is unreachable from
the four enumerators). -/
def qualitySettings.libsrcInterpolation (q : qualitySettings) : Int :=
  match q.interpolation with
  | Interpolation.Interpolation_Linear => SRC_ZERO_ORDER_HOLD
  | Interpolation.Interpolation_SincFastest => SRC_SINC_FASTEST
  | Interpolation.Interpolation_SincMedium => SRC_SINC_MEDIUM_QUALITY
  | Interpolation.Interpolation_SincBest => SRC_SINC_BEST_QUALITY

/-- Modelled from the spec: `mixer::processingSampleRate` is implemented
outside the examined sources; the spec fixes it as
`processingSampleRate = outputSampleRate × oversamplingFactor`. -/
def processingSampleRate (q : qualitySettings) (outputRate : Int) : Int :=
  outputRate * q.sampleRateMultiplier

/-! ### Sample clipping (`mixer::clip` in mixer.h)

Samples (`sample_t`, a C `float`) are modelled as rationals: `clip` performs
only order comparisons and returns one of its operands, so its behaviour on
exactly representable values is that of the exact order on ℚ. -/

/-- `static inline sample_t clip( const sample_t _s )`. -/
def clip (s : ℚ) : ℚ :=
  if s > 1 then 1
  else if s < -1 then -1
  else s

/-- Modelled from the spec: the per-port mixing step (`bufferToPort` and the
master-mix accumulation, implemented outside the examined sources) deposits
each unit's output scaled by the port volume, sums across units, and applies
the master gain, before clipping. -/
def mixedSample (unitOutputs : List ℚ) (portVolume : ℚ) (masterGain : ℚ) : ℚ :=
  masterGain * (unitOutputs.map (fun s => portVolume * s)).sum

/-! ### Play handles (`mixer::addPlayHandle` in mixer.h) -/

/-- A play handle, identified (the engine stores opaque pointers). -/
structure PlayHandle where
  id : Nat
  deriving DecidableEq, Repr

/-- Result of `mixer::addPlayHandle`: the returned `bool`, the play-handle
list after the call, and whether the submitted handle was `delete`d. -/
structure AddResult where
  returned : Bool
  handles : List PlayHandle
  destroyed : Bool
  deriving DecidableEq, Repr

/-- `mixer::addPlayHandle( playHandle * _ph )`: if `criticalXRuns() == false`
the handle is appended (`push_back`) under the global lock and `true` is
returned; otherwise the handle is `delete`d and `false` is returned.
`criticalXRuns()` is implemented outside the examined sources, so it enters
as an abstract boolean input. -/
def addPlayHandle (criticalXRuns : Bool) (handles : List PlayHandle)
    (ph : PlayHandle) : AddResult :=
  if criticalXRuns = false then
    { returned := true, handles := handles ++ [ph], destroyed := false }
  else
    { returned := false, handles := handles, destroyed := true }

/-- Modelled from the spec: `mixer::removePlayHandle` is implemented outside
the examined sources; the spec says it removes the given unit under the
global lock and that removing a unit not present is a no-op (idempotent
removal). -/
def removePlayHandle (handles : List PlayHandle) (ph : PlayHandle) :
    List PlayHandle :=
  handles.filter (fun x => x ≠ ph)

/-! ### Buffer delivery (`mixer::nextBuffer` in mixer.h) -/

/-- A rendered period buffer (`surroundSampleFrame *`), identified. -/
structure Buffer where
  id : Nat
  deriving DecidableEq, Repr

/-- Which path `nextBuffer()` takes for the returned buffer. -/
inductive BufferSource
  | fromFifo
  | renderedSync
  deriving DecidableEq, Repr

/-- The dispatch of `mixer::nextBuffer()`:
`hasFifoWriter() ? m_fifo->read() : renderNextBuffer()`.  `hasFifoWriter()`
is `m_fifoWriter != NULL` (lookahead enabled); the fifo contents are passed
in to record that the branch does not consult them. -/
def nextBufferPath (hasFifoWriter : Bool) (_fifoContents : List Buffer) :
    BufferSource :=
  if hasFifoWriter then BufferSource.fromFifo else BufferSource.renderedSync

/-- Modelled from the spec: the fifo (`fifoBuffer`, implemented outside the
examined sources) write operation appends the newly rendered buffer at the
tail. -/
def fifoWrite (q : List Buffer) (b : Buffer) : List Buffer :=
  q ++ [b]

/-- Modelled from the spec: the fifo read operation takes the oldest
completed buffer from the head. -/
def fifoRead (q : List Buffer) : Option (Buffer × List Buffer) :=
  match q with
  | [] => Option.none
  | b :: rest => Option.some (b, rest)

/-- Draining the fifo by repeated `fifoRead`, with fuel bounding the number
of reads. -/
def fifoDrainAux : Nat → List Buffer → List Buffer
  | 0, _ => []
  | n + 1, q =>
      match fifoRead q with
      | Option.none => []
      | Option.some (b, rest) => b :: fifoDrainAux n rest

/-- Reading the whole fifo out by repeated `fifoRead`. -/
def fifoDrain (q : List Buffer) : List Buffer :=
  fifoDrainAux q.length q

/-! ### Buffer pool rotation (spec §3, "Buffer Pool entry")

Modelled from the spec: the rotation of `m_readBuffer`/`m_writeBuffer` is
implemented outside the examined sources (only the member declarations are in
mixer.h); per the spec the three pool roles rotate logically through a ring
of `m_poolDepth` slots, the write slot staying ahead of the read slot. -/

/-- The pool's slot indices (`m_readBuffer`, `m_writeBuffer`). -/
structure BufferPoolState where
  readBuffer : Nat
  writeBuffer : Nat
  deriving DecidableEq, Repr

/-- Modelled from the spec: initially the reader is on slot 0 and the writer
on the next slot. -/
def initPoolState : BufferPoolState :=
  { readBuffer := 0, writeBuffer := 1 }

/-- Modelled from the spec: completing a period rotates every pool role one
slot forward, modulo the pool depth. -/
def rotatePool (depth : Nat) (s : BufferPoolState) : BufferPoolState :=
  { readBuffer := (s.readBuffer + 1) % depth
    writeBuffer := (s.writeBuffer + 1) % depth }

/-- The pool state reached after `k` rotations from the initial state: the
reachable states of the pool. -/
def poolAfter (depth k : Nat) : BufferPoolState :=
  (rotatePool depth)^[k] initPoolState

/-! ### Worker-pool handshake (spec §4.3)

Modelled from the spec: the worker threads and the render call's
synchronization through `m_queueReadySem` / `m_workersDoneSem` are
implemented outside the examined sources (only the two semaphore members are
declared in mixer.h).  Per the spec, each period the render call publishes
the chunk assignment and signals "work ready" once per worker; each worker
blocks on "work ready", performs its assigned chunk for the period, and
signals "work done"; the render call collects one "work done" per worker
before accumulating, and only afterwards dispatches the next period. -/

/-- Phase of a worker thread: blocked on the "work ready" semaphore, or
rendering its chunk. -/
inductive WPhase
  | idle
  | working
  deriving DecidableEq, Repr

/-- Phase of the render call within a period: publishing the chunk
assignment, collecting "work done" signals (`k` collected so far), or
reading the workers' scratch buffers. -/
inductive MPhase
  | dispatching
  | collecting (k : Nat)
  | accumulating
  deriving DecidableEq, Repr

/-- Global state of the handshake with `n` workers: the render call's period
number (starting at 1) and phase, each worker's phase and the last period it
began a chunk for (0 = none yet), and the two semaphore counters. -/
structure HandshakeState (n : Nat) where
  mainPeriod : Nat
  main : MPhase
  wphase : Fin n → WPhase
  wperiod : Fin n → Nat
  queueReady : Nat
  workersDone : Nat

/-- Initial handshake state: about to dispatch period 1, all workers idle,
both semaphores at zero. -/
def handshakeInit (n : Nat) : HandshakeState n :=
  { mainPeriod := 1
    main := MPhase.dispatching
    wphase := fun _ => WPhase.idle
    wperiod := fun _ => 0
    queueReady := 0
    workersDone := 0 }

/-- One interleaved step of the handshake protocol. -/
inductive HandshakeStep (n : Nat) : HandshakeState n → HandshakeState n → Prop
  | dispatch (s : HandshakeState n)
      (hmain : s.main = MPhase.dispatching) :
      HandshakeStep n s
        { s with main := MPhase.collecting 0, queueReady := n }
  | workerStart (s : HandshakeState n) (i : Fin n)
      (hidle : s.wphase i = WPhase.idle)
      (hready : 0 < s.queueReady)
      (hnew : s.wperiod i < s.mainPeriod) :
      HandshakeStep n s
        { s with
            wphase := Function.update s.wphase i WPhase.working
            wperiod := Function.update s.wperiod i s.mainPeriod
            queueReady := s.queueReady - 1 }
  | workerFinish (s : HandshakeState n) (i : Fin n)
      (hwork : s.wphase i = WPhase.working) :
      HandshakeStep n s
        { s with
            wphase := Function.update s.wphase i WPhase.idle
            workersDone := s.workersDone + 1 }
  | collect (s : HandshakeState n) (k : Nat)
      (hmain : s.main = MPhase.collecting k)
      (hdone : 0 < s.workersDone) :
      HandshakeStep n s
        { s with
            main := if k + 1 = n then MPhase.accumulating
                    else MPhase.collecting (k + 1)
            workersDone := s.workersDone - 1 }
  | nextPeriod (s : HandshakeState n)
      (hmain : s.main = MPhase.accumulating) :
      HandshakeStep n s
        { s with main := MPhase.dispatching, mainPeriod := s.mainPeriod + 1 }

/-- The handshake states reachable from the initial state. -/
inductive HandshakeReachable (n : Nat) : HandshakeState n → Prop
  | init : HandshakeReachable n (handshakeInit n)
  | step {s t : HandshakeState n} (hs : HandshakeReachable n s)
      (hst : HandshakeStep n s t) : HandshakeReachable n t

/-- Number of workers that have begun the current period's chunk. -/
def startedCount {n : Nat} (s : HandshakeState n) : Nat :=
  (Finset.univ.filter fun i => s.wperiod i = s.mainPeriod).card

/-- Number of workers currently rendering a chunk. -/
def workingCount {n : Nat} (s : HandshakeState n) : Nat :=
  (Finset.univ.filter fun i => s.wphase i = WPhase.working).card

/-- The inductive invariant of the handshake protocol. -/
def HandshakeInv (n : Nat) (s : HandshakeState n) : Prop :=
  (∀ i, s.wphase i = WPhase.working → s.wperiod i = s.mainPeriod) ∧
  (∀ i, s.wperiod i ≤ s.mainPeriod) ∧
  (s.main = MPhase.dispatching →
    s.queueReady = 0 ∧ s.workersDone = 0 ∧
    ∀ i, s.wphase i = WPhase.idle ∧ s.wperiod i < s.mainPeriod) ∧
  (∀ k, s.main = MPhase.collecting k →
    s.queueReady + startedCount s = n ∧
    s.workersDone + k + workingCount s = startedCount s) ∧
  (s.main = MPhase.accumulating →
    s.queueReady = 0 ∧ s.workersDone = 0 ∧
    ∀ i, s.wphase i = WPhase.idle ∧ s.wperiod i = s.mainPeriod)

/-! ### A concrete run of the handshake (one worker, one period) -/

/-- The single worker of the one-worker demonstration run. -/
def fin0 : Fin 1 :=
  ⟨0, Nat.one_pos⟩

/-- Demonstration run, state 0: the initial state with one worker. -/
def demoS0 : HandshakeState 1 :=
  handshakeInit 1

/-- Demonstration run, state 1: after the render call dispatches period 1. -/
def demoS1 : HandshakeState 1 :=
  { demoS0 with main := MPhase.collecting 0, queueReady := 1 }

/-- Demonstration run, state 2: after the worker acquires "work ready" and
begins its chunk. -/
def demoS2 : HandshakeState 1 :=
  { demoS1 with
      wphase := Function.update demoS1.wphase fin0 WPhase.working
      wperiod := Function.update demoS1.wperiod fin0 demoS1.mainPeriod
      queueReady := demoS1.queueReady - 1 }

/-- Demonstration run, state 3: after the worker finishes its chunk and
signals "work done". -/
def demoS3 : HandshakeState 1 :=
  { demoS2 with
      wphase := Function.update demoS2.wphase fin0 WPhase.idle
      workersDone := demoS2.workersDone + 1 }

/-- Demonstration run, state 4: after the render call collects the single
"work done" signal and proceeds to accumulation. -/
def demoS4 : HandshakeState 1 :=
  { demoS3 with
      main := if 0 + 1 = 1 then MPhase.accumulating
              else MPhase.collecting (0 + 1)
      workersDone := demoS3.workersDone - 1 }

/-! ## Theorems -/

/-! ### Counting helper lemmas -/

theorem card_filter_update_true {n : Nat} {α : Type} [DecidableEq α]
    (f : Fin n → α) (p : α → Prop) [DecidablePred p] (i : Fin n) (b : α)
    (hfi : ¬ p (f i)) (hb : p b) :
    (Finset.univ.filter fun j => p (Function.update f i b j)).card
      = (Finset.univ.filter fun j => p (f j)).card + 1 := by
  have hset : (Finset.univ.filter fun j => p (Function.update f i b j))
      = insert i (Finset.univ.filter fun j => p (f j)) := by
    ext j
    by_cases hj : j = i
    · subst hj
      simp [Function.update_same, hb]
    · simp [Function.update_apply, hj]
  rw [hset, Finset.card_insert_of_not_mem]
  simp [hfi]

theorem card_filter_update_false {n : Nat} {α : Type} [DecidableEq α]
    (f : Fin n → α) (p : α → Prop) [DecidablePred p] (i : Fin n) (b : α)
    (hfi : p (f i)) (hb : ¬ p b) :
    (Finset.univ.filter fun j => p (f j)).card
      = (Finset.univ.filter fun j => p (Function.update f i b j)).card + 1 := by
  have h2 := card_filter_update_true (Function.update f i b) p i (f i)
    (by simpa using hb) (by simpa using hfi)
  simpa [Function.update_idem, Function.update_eq_self] using h2

theorem card_filter_le_n {n : Nat} (p : Fin n → Prop) [DecidablePred p] :
    (Finset.univ.filter fun j => p j).card ≤ n := by
  have h := Finset.card_filter_le (Finset.univ : Finset (Fin n)) p
  simpa using h

theorem startedCount_le {n : Nat} (s : HandshakeState n) :
    startedCount s ≤ n :=
  card_filter_le_n _

theorem startedCount_eq_zero {n : Nat} (s : HandshakeState n)
    (h : ∀ i, s.wperiod i ≠ s.mainPeriod) : startedCount s = 0 := by
  unfold startedCount
  rw [Finset.card_eq_zero, Finset.filter_eq_empty_iff]
  intro i _
  exact h i

theorem workingCount_eq_zero {n : Nat} (s : HandshakeState n)
    (h : ∀ i, s.wphase i = WPhase.idle) : workingCount s = 0 := by
  unfold workingCount
  rw [Finset.card_eq_zero, Finset.filter_eq_empty_iff]
  intro i _
  rw [h i]
  exact fun hc => WPhase.noConfusion hc

theorem all_started {n : Nat} (s : HandshakeState n)
    (h : startedCount s = n) : ∀ i, s.wperiod i = s.mainPeriod := by
  intro i
  have huniv : (Finset.univ.filter fun j => s.wperiod j = s.mainPeriod)
      = Finset.univ := by
    apply Finset.eq_univ_of_card
    simpa [startedCount, Fintype.card_fin] using h
  have hi : i ∈ (Finset.univ.filter fun j => s.wperiod j = s.mainPeriod) := by
    rw [huniv]
    exact Finset.mem_univ i
  exact (Finset.mem_filter.mp hi).2

theorem all_idle_of_workingCount {n : Nat} (s : HandshakeState n)
    (h : workingCount s = 0) : ∀ i, s.wphase i = WPhase.idle := by
  intro i
  have hempty : (Finset.univ.filter fun j => s.wphase j = WPhase.working)
      = ∅ := by
    rw [← Finset.card_eq_zero]
    exact h
  cases hph : s.wphase i with
  | idle => rfl
  | working =>
      exfalso
      have hi : i ∈ (Finset.univ.filter fun j => s.wphase j = WPhase.working) :=
        Finset.mem_filter.mpr ⟨Finset.mem_univ i, hph⟩
      rw [hempty] at hi
      exact Finset.not_mem_empty i hi

theorem card_started_update {n : Nat} (f : Fin n → Nat) (i : Fin n) (b : Nat)
    (hfi : ¬ f i = b) :
    (Finset.univ.filter fun j => Function.update f i b j = b).card
      = (Finset.univ.filter fun j => f j = b).card + 1 :=
  card_filter_update_true f (fun x => x = b) i b hfi rfl

theorem card_working_update_start {n : Nat} (f : Fin n → WPhase) (i : Fin n)
    (hfi : f i = WPhase.idle) :
    (Finset.univ.filter fun j =>
        Function.update f i WPhase.working j = WPhase.working).card
      = (Finset.univ.filter fun j => f j = WPhase.working).card + 1 :=
  card_filter_update_true f (fun x => x = WPhase.working) i WPhase.working
    (by rw [hfi]; exact fun hc => WPhase.noConfusion hc) rfl

theorem card_working_update_finish {n : Nat} (f : Fin n → WPhase) (i : Fin n)
    (hfi : f i = WPhase.working) :
    (Finset.univ.filter fun j => f j = WPhase.working).card
      = (Finset.univ.filter fun j =>
          Function.update f i WPhase.idle j = WPhase.working).card + 1 :=
  card_filter_update_false f (fun x => x = WPhase.working) i WPhase.idle hfi
    (fun hc => WPhase.noConfusion hc)

/-- The handshake invariant is preserved by every step. -/
theorem handshake_step_inv {n : Nat} {s t : HandshakeState n}
    (hst : HandshakeStep n s t) (ih : HandshakeInv n s) : HandshakeInv n t := by
  obtain ⟨ih1, ih2, ih3, ih4, ih5⟩ := ih
  cases hst with
  | dispatch hmain =>
      obtain ⟨hq, hd, hw⟩ := ih3 hmain
      have hs0 : startedCount s = 0 :=
        startedCount_eq_zero s (fun i => Nat.ne_of_lt (hw i).2)
      have hw0 : workingCount s = 0 :=
        workingCount_eq_zero s (fun i => (hw i).1)
      refine ⟨?_, ?_, ?_, ?_, ?_⟩
      · intro i hi
        exact ih1 i hi
      · intro i
        exact ih2 i
      · intro hmt
        exact MPhase.noConfusion
          (show MPhase.collecting 0 = MPhase.dispatching from hmt)
      · intro k hk
        have hk2 : MPhase.collecting 0 = MPhase.collecting k := hk
        injection hk2 with hk0
        subst hk0
        have hcc : startedCount
            ({ s with main := MPhase.collecting 0, queueReady := n }
              : HandshakeState n) = startedCount s := rfl
        have hcw : workingCount
            ({ s with main := MPhase.collecting 0, queueReady := n }
              : HandshakeState n) = workingCount s := rfl
        refine ⟨?_, ?_⟩
        · show n + startedCount
            ({ s with main := MPhase.collecting 0, queueReady := n }
              : HandshakeState n) = n
          rw [hcc, hs0]
          omega
        · show s.workersDone + 0 + workingCount
            ({ s with main := MPhase.collecting 0, queueReady := n }
              : HandshakeState n)
            = startedCount
              ({ s with main := MPhase.collecting 0, queueReady := n }
                : HandshakeState n)
          rw [hcc, hcw, hs0, hw0, hd]
      · intro hmt
        exact MPhase.noConfusion
          (show MPhase.collecting 0 = MPhase.accumulating from hmt)
  | workerStart i hidle hready hnew =>
      refine ⟨?_, ?_, ?_, ?_, ?_⟩
      · intro j hj
        by_cases hji : j = i
        · subst hji
          show Function.update s.wperiod j s.mainPeriod j = s.mainPeriod
          rw [Function.update_same]
        · have hj' : s.wphase j = WPhase.working := by
            have hju : Function.update s.wphase i WPhase.working j
                = WPhase.working := hj
            rwa [Function.update_noteq hji] at hju
          show Function.update s.wperiod i s.mainPeriod j = s.mainPeriod
          rw [Function.update_noteq hji]
          exact ih1 j hj'
      · intro j
        by_cases hji : j = i
        · subst hji
          show Function.update s.wperiod j s.mainPeriod j ≤ s.mainPeriod
          rw [Function.update_same]
        · show Function.update s.wperiod i s.mainPeriod j ≤ s.mainPeriod
          rw [Function.update_noteq hji]
          exact ih2 j
      · intro hmt
        exfalso
        have hmt' : s.main = MPhase.dispatching := hmt
        have hq := (ih3 hmt').1
        omega
      · intro k' hk'
        have hk2 : s.main = MPhase.collecting k' := hk'
        obtain ⟨hqs, hcnt⟩ := ih4 k' hk2
        have hstep : startedCount
            ({ s with
                wphase := Function.update s.wphase i WPhase.working
                wperiod := Function.update s.wperiod i s.mainPeriod
                queueReady := s.queueReady - 1 } : HandshakeState n)
            = startedCount s + 1 := by
          show (Finset.univ.filter fun j =>
              Function.update s.wperiod i s.mainPeriod j = s.mainPeriod).card
            = startedCount s + 1
          rw [card_started_update s.wperiod i s.mainPeriod (Nat.ne_of_lt hnew)]
          rfl
        have hwstep : workingCount
            ({ s with
                wphase := Function.update s.wphase i WPhase.working
                wperiod := Function.update s.wperiod i s.mainPeriod
                queueReady := s.queueReady - 1 } : HandshakeState n)
            = workingCount s + 1 := by
          show (Finset.univ.filter fun j =>
              Function.update s.wphase i WPhase.working j
                = WPhase.working).card
            = workingCount s + 1
          rw [card_working_update_start s.wphase i hidle]
          rfl
        refine ⟨?_, ?_⟩
        · show s.queueReady - 1 + startedCount
            ({ s with
                wphase := Function.update s.wphase i WPhase.working
                wperiod := Function.update s.wperiod i s.mainPeriod
                queueReady := s.queueReady - 1 } : HandshakeState n) = n
          rw [hstep]
          omega
        · show s.workersDone + k' + workingCount
            ({ s with
                wphase := Function.update s.wphase i WPhase.working
                wperiod := Function.update s.wperiod i s.mainPeriod
                queueReady := s.queueReady - 1 } : HandshakeState n)
            = startedCount
              ({ s with
                  wphase := Function.update s.wphase i WPhase.working
                  wperiod := Function.update s.wperiod i s.mainPeriod
                  queueReady := s.queueReady - 1 } : HandshakeState n)
          rw [hstep, hwstep]
          omega
      · intro hmt
        exfalso
        have hmt' : s.main = MPhase.accumulating := hmt
        have hq := (ih5 hmt').1
        omega
  | workerFinish i hwork =>
      refine ⟨?_, ?_, ?_, ?_, ?_⟩
      · intro j hj
        by_cases hji : j = i
        · subst hji
          exfalso
          have hju : Function.update s.wphase j WPhase.idle j
              = WPhase.working := hj
          rw [Function.update_same] at hju
          exact WPhase.noConfusion hju
        · have hj' : s.wphase j = WPhase.working := by
            have hju : Function.update s.wphase i WPhase.idle j
                = WPhase.working := hj
            rwa [Function.update_noteq hji] at hju
          exact ih1 j hj'
      · intro j
        exact ih2 j
      · intro hmt
        exfalso
        have hmt' : s.main = MPhase.dispatching := hmt
        have hidle := ((ih3 hmt').2.2 i).1
        rw [hwork] at hidle
        exact WPhase.noConfusion hidle
      · intro k' hk'
        have hk2 : s.main = MPhase.collecting k' := hk'
        obtain ⟨hqs, hcnt⟩ := ih4 k' hk2
        have hwstep : workingCount s = workingCount
            ({ s with
                wphase := Function.update s.wphase i WPhase.idle
                workersDone := s.workersDone + 1 } : HandshakeState n)
            + 1 := by
          show workingCount s
            = (Finset.univ.filter fun j =>
                Function.update s.wphase i WPhase.idle j
                  = WPhase.working).card + 1
          rw [← card_working_update_finish s.wphase i hwork]
          rfl
        have hcc : startedCount
            ({ s with
                wphase := Function.update s.wphase i WPhase.idle
                workersDone := s.workersDone + 1 } : HandshakeState n)
            = startedCount s := rfl
        refine ⟨?_, ?_⟩
        · show s.queueReady + startedCount
            ({ s with
                wphase := Function.update s.wphase i WPhase.idle
                workersDone := s.workersDone + 1 } : HandshakeState n) = n
          rw [hcc]
          exact hqs
        · show s.workersDone + 1 + k' + workingCount
            ({ s with
                wphase := Function.update s.wphase i WPhase.idle
                workersDone := s.workersDone + 1 } : HandshakeState n)
            = startedCount
              ({ s with
                  wphase := Function.update s.wphase i WPhase.idle
                  workersDone := s.workersDone + 1 } : HandshakeState n)
          rw [hcc]
          omega
      · intro hmt
        exfalso
        have hmt' : s.main = MPhase.accumulating := hmt
        have hidle := ((ih5 hmt').2.2 i).1
        rw [hwork] at hidle
        exact WPhase.noConfusion hidle
  | collect k hmain hdone =>
      obtain ⟨hqs, hcnt⟩ := ih4 k hmain
      have hsle := startedCount_le s
      by_cases hkn : k + 1 = n
      · have hworking : workingCount s = 0 := by omega
        have hstarted : startedCount s = n := by omega
        have hq0 : s.queueReady = 0 := by omega
        have hallidle := all_idle_of_workingCount s hworking
        have hallstart := all_started s hstarted
        refine ⟨?_, ?_, ?_, ?_, ?_⟩
        · intro j hj
          exact ih1 j hj
        · intro j
          exact ih2 j
        · intro hmt
          have hmt' : (if k + 1 = n then MPhase.accumulating
              else MPhase.collecting (k + 1)) = MPhase.dispatching := hmt
          rw [if_pos hkn] at hmt'
          exact MPhase.noConfusion hmt'
        · intro k' hk'
          have hk2 : (if k + 1 = n then MPhase.accumulating
              else MPhase.collecting (k + 1)) = MPhase.collecting k' := hk'
          rw [if_pos hkn] at hk2
          exact MPhase.noConfusion hk2
        · intro _
          refine ⟨hq0, ?_, fun i => ⟨hallidle i, hallstart i⟩⟩
          show s.workersDone - 1 = 0
          omega
      · refine ⟨?_, ?_, ?_, ?_, ?_⟩
        · intro j hj
          exact ih1 j hj
        · intro j
          exact ih2 j
        · intro hmt
          have hmt' : (if k + 1 = n then MPhase.accumulating
              else MPhase.collecting (k + 1)) = MPhase.dispatching := hmt
          rw [if_neg hkn] at hmt'
          exact MPhase.noConfusion hmt'
        · intro k' hk'
          have hk2 : (if k + 1 = n then MPhase.accumulating
              else MPhase.collecting (k + 1)) = MPhase.collecting k' := hk'
          rw [if_neg hkn] at hk2
          injection hk2 with hkk
          subst hkk
          have hcc : startedCount
              ({ s with
                  main := if k + 1 = n then MPhase.accumulating
                          else MPhase.collecting (k + 1)
                  workersDone := s.workersDone - 1 } : HandshakeState n)
              = startedCount s := rfl
          have hcw : workingCount
              ({ s with
                  main := if k + 1 = n then MPhase.accumulating
                          else MPhase.collecting (k + 1)
                  workersDone := s.workersDone - 1 } : HandshakeState n)
              = workingCount s := rfl
          refine ⟨?_, ?_⟩
          · show s.queueReady + startedCount
              ({ s with
                  main := if k + 1 = n then MPhase.accumulating
                          else MPhase.collecting (k + 1)
                  workersDone := s.workersDone - 1 } : HandshakeState n) = n
            rw [hcc]
            exact hqs
          · show s.workersDone - 1 + (k + 1) + workingCount
              ({ s with
                  main := if k + 1 = n then MPhase.accumulating
                          else MPhase.collecting (k + 1)
                  workersDone := s.workersDone - 1 } : HandshakeState n)
              = startedCount
                ({ s with
                    main := if k + 1 = n then MPhase.accumulating
                            else MPhase.collecting (k + 1)
                    workersDone := s.workersDone - 1 } : HandshakeState n)
            rw [hcc, hcw]
            omega
        · intro hmt
          have hmt' : (if k + 1 = n then MPhase.accumulating
              else MPhase.collecting (k + 1)) = MPhase.accumulating := hmt
          rw [if_neg hkn] at hmt'
          exact MPhase.noConfusion hmt'
  | nextPeriod hmain =>
      obtain ⟨hq, hd, hall⟩ := ih5 hmain
      refine ⟨?_, ?_, ?_, ?_, ?_⟩
      · intro j hj
        exfalso
        have hji := (hall j).1
        have hj' : s.wphase j = WPhase.working := hj
        rw [hji] at hj'
        exact WPhase.noConfusion hj'
      · intro j
        show s.wperiod j ≤ s.mainPeriod + 1
        exact Nat.le_succ_of_le (ih2 j)
      · intro _
        refine ⟨hq, hd, fun i => ⟨(hall i).1, ?_⟩⟩
        show s.wperiod i < s.mainPeriod + 1
        rw [(hall i).2]
        exact Nat.lt_succ_self _
      · intro k hk
        exact MPhase.noConfusion
          (show MPhase.dispatching = MPhase.collecting k from hk)
      · intro hmt
        exact MPhase.noConfusion
          (show MPhase.dispatching = MPhase.accumulating from hmt)

/-- The handshake invariant holds in every reachable state. -/
theorem handshake_inv {n : Nat} {s : HandshakeState n}
    (h : HandshakeReachable n s) : HandshakeInv n s := by
  induction h with
  | init =>
      refine ⟨?_, ?_, ?_, ?_, ?_⟩
      · intro i hi
        exact absurd hi (by simp [handshakeInit])
      · intro i
        simp [handshakeInit]
      · intro _
        exact ⟨rfl, rfl, fun i => ⟨rfl, Nat.one_pos⟩⟩
      · intro k hk
        exact absurd hk (by simp [handshakeInit])
      · intro hk
        exact absurd hk (by simp [handshakeInit])
  | step _ hst ih =>
      exact handshake_step_inv hst ih

/-! ### Pool rotation helper lemmas -/

/-- Along every pool run the read index stays in range and the write index
stays one slot ahead of the read index modulo the depth. -/
theorem poolAfter_inv (depth : Nat) (hd : 2 ≤ depth) (k : Nat) :
    (poolAfter depth k).readBuffer < depth ∧
    (poolAfter depth k).writeBuffer
      = ((poolAfter depth k).readBuffer + 1) % depth := by
  induction k with
  | zero =>
      refine ⟨?_, ?_⟩
      · show 0 < depth
        omega
      · show 1 = (0 + 1) % depth
        rw [Nat.mod_eq_of_lt (by omega)]
  | succ k ih =>
      obtain ⟨hlt, hw⟩ := ih
      have hstep : poolAfter depth (k + 1)
          = rotatePool depth (poolAfter depth k) :=
        Function.iterate_succ_apply' (rotatePool depth) k initPoolState
      rw [hstep]
      refine ⟨Nat.mod_lt _ (by omega), ?_⟩
      show ((poolAfter depth k).writeBuffer + 1) % depth
        = (((poolAfter depth k).readBuffer + 1) % depth + 1) % depth
      rw [hw]

/-! ### Fifo helper lemmas -/

/-- Writing a batch of buffers into the fifo appends them in order. -/
theorem foldl_fifoWrite (bs : List Buffer) (acc : List Buffer) :
    bs.foldl fifoWrite acc = acc ++ bs := by
  induction bs generalizing acc with
  | nil => simp
  | cons b rest ih =>
      simp [fifoWrite, ih, List.append_assoc]

/-- With enough fuel, draining by repeated reads returns the whole queue. -/
theorem fifoDrainAux_eq (fuel : Nat) (q : List Buffer)
    (h : q.length ≤ fuel) : fifoDrainAux fuel q = q := by
  induction fuel generalizing q with
  | zero =>
      cases q with
      | nil => rfl
      | cons b rest => simp at h
  | succ fuel ih =>
      cases q with
      | nil => rfl
      | cons b rest =>
          show b :: fifoDrainAux fuel rest = b :: rest
          rw [ih rest (by simpa using Nat.lt_succ_iff.mp (Nat.lt_of_lt_of_le
            (Nat.lt_succ_of_le (Nat.le_refl _)) (by simpa using h)))]

/-! ### Reachability of the demonstration run -/

/-- The accumulating state of the one-worker demonstration run is reachable. -/
theorem demoS4_reachable : HandshakeReachable 1 demoS4 := by
  have h0 : HandshakeReachable 1 demoS0 := HandshakeReachable.init
  have h1 : HandshakeReachable 1 demoS1 :=
    HandshakeReachable.step h0 (HandshakeStep.dispatch demoS0 rfl)
  have h2 : HandshakeReachable 1 demoS2 :=
    HandshakeReachable.step h1
      (HandshakeStep.workerStart demoS1 fin0 rfl (by decide) (by decide))
  have h3 : HandshakeReachable 1 demoS3 :=
    HandshakeReachable.step h2
      (HandshakeStep.workerFinish demoS2 fin0 (by decide))
  exact HandshakeReachable.step h3
    (HandshakeStep.collect demoS3 0 rfl (by decide))

/-! ## Claim theorems -/

/-- Claim C1, counterexample: with lookahead enabled (a fifo writer present)
and the pool empty, `nextBuffer()` takes the fifo-read path, not the
synchronous-rendering path the claim asserts. -/
theorem nextBuffer_empty_pool_counterexample :
    nextBufferPath true [] = BufferSource.fromFifo ∧
    BufferSource.fromFifo ≠ BufferSource.renderedSync := by
  exact ⟨rfl, by decide⟩

/-- Claim C1 (amended): `nextBuffer()` reads from the fifo exactly when a
fifo writer exists (lookahead enabled), regardless of the pool contents —
with an empty pool the fifo read blocks rather than falling back — and it
renders synchronously on the calling thread exactly when lookahead is
disabled. -/
theorem nextBuffer_fifo_dispatch (q : List Buffer) :
    nextBufferPath true q = BufferSource.fromFifo ∧
    nextBufferPath false q = BufferSource.renderedSync := by
  exact ⟨rfl, rfl⟩

/-- Claim C2: while in critical-overrun state `addPlayHandle` returns false,
destroys the handle and leaves the play-handle list unchanged; otherwise it
appends the handle under the global lock and returns true. -/
theorem addPlayHandle_backpressure (handles : List PlayHandle)
    (ph : PlayHandle) :
    (addPlayHandle true handles ph).returned = false ∧
    (addPlayHandle true handles ph).destroyed = true ∧
    (addPlayHandle true handles ph).handles = handles ∧
    (addPlayHandle false handles ph).returned = true ∧
    (addPlayHandle false handles ph).destroyed = false ∧
    (addPlayHandle false handles ph).handles = handles ++ [ph] := by
  exact ⟨rfl, rfl, rfl, rfl, rfl, rfl⟩

/-- Claim C3: `clip` maps every sample into [-1, 1], leaves every sample
already in [-1, 1] (including exactly ±1) unmodified, and clips the
mixed sample 1.2 of the two-unit scenario to exactly 1. -/
theorem clip_bounded_and_identity :
    (∀ s : ℚ, -1 ≤ clip s ∧ clip s ≤ 1) ∧
    (∀ s : ℚ, -1 ≤ s → s ≤ 1 → clip s = s) ∧
    clip 1 = 1 ∧
    clip (-1) = -1 ∧
    mixedSample [6/10, 6/10] 1 1 = 12/10 ∧
    clip (mixedSample [6/10, 6/10] 1 1) = 1 := by
  refine ⟨?_, ?_, ?_, ?_, ?_, ?_⟩
  · intro s
    unfold clip
    split_ifs with h1 h2
    · norm_num
    · norm_num
    · constructor <;> linarith
  · intro s hlo hhi
    unfold clip
    split_ifs with h1 h2
    · linarith
    · linarith
    · rfl
  · norm_num [clip]
  · norm_num [clip]
  · norm_num [mixedSample]
  · norm_num [clip, mixedSample]

/-- Claim C3 witness: `clip` at the in-range sample 1/2 and at the
boundary 1. -/
theorem clip_bounded_witness :
    (-1 : ℚ) ≤ 1/2 ∧ (1/2 : ℚ) ≤ 1 ∧ clip (1/2) = 1/2 :=
  ⟨by norm_num, by norm_num,
    clip_bounded_and_identity.2.1 (1/2) (by norm_num) (by norm_num)⟩

/-- Claim C4: the Draft preset uses linear interpolation and no
oversampling, so its multiplier is 1 and the processing rate equals the
output rate; the FinalMix preset uses 8x oversampling, so its multiplier is
8 and output rate 44100 gives processing rate 352800. -/
theorem quality_presets_processing_rate :
    (qualitySettings.ofMode Mode.Mode_Draft).interpolation
      = Interpolation.Interpolation_Linear ∧
    (qualitySettings.ofMode Mode.Mode_Draft).oversampling
      = Oversampling.Oversampling_None ∧
    (qualitySettings.ofMode Mode.Mode_Draft).sampleRateMultiplier = 1 ∧
    (∀ outputRate : Int,
      processingSampleRate (qualitySettings.ofMode Mode.Mode_Draft) outputRate
        = outputRate) ∧
    (qualitySettings.ofMode Mode.Mode_FinalMix).oversampling
      = Oversampling.Oversampling_8x ∧
    (qualitySettings.ofMode Mode.Mode_FinalMix).sampleRateMultiplier = 8 ∧
    processingSampleRate (qualitySettings.ofMode Mode.Mode_FinalMix) 44100
      = 352800 := by
  refine ⟨rfl, rfl, rfl, ?_, rfl, rfl, by decide⟩
  intro outputRate
  show outputRate * 1 = outputRate
  exact mul_one outputRate

/-- Claim C5: for every quality-settings value, and for every underlying
integer an out-of-range enum value could hold, the sample-rate multiplier is
one of 1, 2, 4, 8 (the two readings agree on in-range values). -/
theorem sampleRateMultiplier_in_allowed_set :
    (∀ q : qualitySettings,
      q.sampleRateMultiplier = 1 ∨ q.sampleRateMultiplier = 2 ∨
      q.sampleRateMultiplier = 4 ∨ q.sampleRateMultiplier = 8) ∧
    (∀ o : Int,
      sampleRateMultiplierCode o = 1 ∨ sampleRateMultiplierCode o = 2 ∨
      sampleRateMultiplierCode o = 4 ∨ sampleRateMultiplierCode o = 8) ∧
    (∀ q : qualitySettings,
      sampleRateMultiplierCode q.oversampling.toInt
        = q.sampleRateMultiplier) := by
  refine ⟨?_, ?_, ?_⟩
  · intro q
    obtain ⟨i, o, sec, afo⟩ := q
    cases o <;> simp [qualitySettings.sampleRateMultiplier]
  · intro o
    unfold sampleRateMultiplierCode
    split_ifs <;> simp
  · intro q
    obtain ⟨i, o, sec, afo⟩ := q
    cases o <;> rfl

/-- Claim C6: in every reachable pool state with depth at least 2, the read
slot index differs from the write slot index. -/
theorem pool_read_ne_write (depth k : Nat) (hd : 2 ≤ depth) :
    (poolAfter depth k).readBuffer ≠ (poolAfter depth k).writeBuffer := by
  obtain ⟨hlt, hw⟩ := poolAfter_inv depth hd k
  rw [hw]
  intro heq
  rcases Nat.lt_or_ge ((poolAfter depth k).readBuffer + 1) depth with h1 | h1
  · rw [Nat.mod_eq_of_lt h1] at heq
    omega
  · have hEq : (poolAfter depth k).readBuffer + 1 = depth := by omega
    rw [hEq, Nat.mod_self] at heq
    omega

/-- Claim C6 witness: at depth 2, after three rotations, read and write
still differ. -/
theorem pool_read_ne_write_witness :
    2 ≤ 2 ∧
    (poolAfter 2 3).readBuffer ≠ (poolAfter 2 3).writeBuffer :=
  ⟨by decide, pool_read_ne_write 2 3 (by decide)⟩

/-- Claim C7: in every reachable state of the two-semaphore handshake, for
every worker count, when the render call is in its accumulation phase every
worker has finished and signalled completion for the current period and no
work-ready token remains (so accumulation never reads a scratch buffer
before its worker signalled completion, and no worker can begin a chunk
during accumulation); moreover every chunk a worker is executing belongs to
the current period, whose dispatch follows the completed accumulation of all
earlier periods. -/
theorem worker_handshake_barrier (n : Nat) (s : HandshakeState n)
    (h : HandshakeReachable n s) :
    (s.main = MPhase.accumulating →
      s.queueReady = 0 ∧
      ∀ i, s.wphase i = WPhase.idle ∧ s.wperiod i = s.mainPeriod) ∧
    (∀ i, s.wphase i = WPhase.working → s.wperiod i = s.mainPeriod) ∧
    (∀ i, s.wperiod i ≤ s.mainPeriod) := by
  obtain ⟨i1, i2, _, _, i5⟩ := handshake_inv h
  exact ⟨fun hm => ⟨(i5 hm).1, (i5 hm).2.2⟩, i1, i2⟩

/-- Claim C7 witness: the demonstration run with one worker reaches the
accumulation phase with the worker idle, its period current, and no token
left. -/
theorem worker_handshake_barrier_witness :
    demoS4.main = MPhase.accumulating ∧
    demoS4.queueReady = 0 ∧
    demoS4.wphase fin0 = WPhase.idle ∧
    demoS4.wperiod fin0 = demoS4.mainPeriod :=
  have hb := worker_handshake_barrier 1 demoS4 demoS4_reachable
  ⟨rfl, (hb.1 rfl).1, ((hb.1 rfl).2 fin0).1, ((hb.1 rfl).2 fin0).2⟩

/-- Claim C8: the pool delivers buffers in strict FIFO order — writing any
batch of rendered buffers and then draining by repeated reads returns
exactly that batch in render order, each read taking the oldest element. -/
theorem fifo_strict_order (bs : List Buffer) :
    fifoDrain (bs.foldl fifoWrite []) = bs ∧
    (∀ b rest, fifoRead (b :: rest) = Option.some (b, rest)) ∧
    (∀ q b, fifoWrite q b = q ++ [b]) := by
  refine ⟨?_, fun b rest => rfl, fun q b => rfl⟩
  rw [foldl_fifoWrite bs []]
  show fifoDrain bs = bs
  unfold fifoDrain
  exact fifoDrainAux_eq bs.length bs (Nat.le_refl _)

/-- Claim C9: removing a play handle that is not in the list is a no-op
leaving the list unchanged, removal is idempotent, and a removed handle is
no longer present. -/
theorem removePlayHandle_noop_idempotent :
    (∀ (handles : List PlayHandle) (ph : PlayHandle),
      ph ∉ handles → removePlayHandle handles ph = handles) ∧
    (∀ (handles : List PlayHandle) (ph : PlayHandle),
      removePlayHandle (removePlayHandle handles ph) ph
        = removePlayHandle handles ph) ∧
    (∀ (handles : List PlayHandle) (ph : PlayHandle),
      ph ∉ removePlayHandle handles ph) := by
  refine ⟨?_, ?_, ?_⟩
  · intro handles ph hnot
    apply List.filter_eq_self.mpr
    intro x hx
    simp only [ne_eq, decide_eq_true_eq]
    intro hxe
    exact hnot (hxe ▸ hx)
  · intro handles ph
    unfold removePlayHandle
    rw [List.filter_filter]
    apply List.filter_congr
    intro x _
    cases h : decide (x ≠ ph) <;> simp [h]
  · intro handles ph
    unfold removePlayHandle
    intro hmem
    have := List.of_mem_filter hmem
    simp at this

/-- Claim C9 witness: removing handle 2 from the one-element list holding
handle 1 leaves the list unchanged. -/
theorem removePlayHandle_noop_witness :
    PlayHandle.mk 2 ∉ [PlayHandle.mk 1] ∧
    removePlayHandle [PlayHandle.mk 1] (PlayHandle.mk 2)
      = [PlayHandle.mk 1] :=
  ⟨by decide,
    removePlayHandle_noop_idempotent.1 [PlayHandle.mk 1] (PlayHandle.mk 2)
      (by decide)⟩

/-- Claim C10: `libsrcInterpolation()` maps Linear to SRC_ZERO_ORDER_HOLD
(not libsamplerate's linear converter), SincFastest to SRC_SINC_FASTEST,
SincMedium to SRC_SINC_MEDIUM_QUALITY, and SincBest to
SRC_SINC_BEST_QUALITY. -/
theorem libsrcInterpolation_mapping :
    (∀ (o : Oversampling) (sec afo : Bool),
      (qualitySettings.mk Interpolation.Interpolation_Linear o sec
        afo).libsrcInterpolation = SRC_ZERO_ORDER_HOLD) ∧
    (∀ (o : Oversampling) (sec afo : Bool),
      (qualitySettings.mk Interpolation.Interpolation_SincFastest o sec
        afo).libsrcInterpolation = SRC_SINC_FASTEST) ∧
    (∀ (o : Oversampling) (sec afo : Bool),
      (qualitySettings.mk Interpolation.Interpolation_SincMedium o sec
        afo).libsrcInterpolation = SRC_SINC_MEDIUM_QUALITY) ∧
    (∀ (o : Oversampling) (sec afo : Bool),
      (qualitySettings.mk Interpolation.Interpolation_SincBest o sec
        afo).libsrcInterpolation = SRC_SINC_BEST_QUALITY) ∧
    SRC_ZERO_ORDER_HOLD ≠ SRC_LINEAR := by
  exact ⟨fun _ _ _ => rfl, fun _ _ _ => rfl, fun _ _ _ => rfl,
    fun _ _ _ => rfl, by decide⟩

end Mixer
